import Mathlib

/-!
Verification of the `1.d4` reachable-position enumerator.

The development shallowly embeds the Python sources:
* `src/src/core/state.py`   — board codec (`from_matrix`, `to_matrix`, `to_hex`, `from_hex`);
* `src/src/core/handler.py` — move rules (`test_mode`, `rule_monotone`, `rule_pivot`,
  `compute_rules`, `rule_slope`, `rule_stride`, `rule_radius`, `rule_anchor`,
  `all_possible_rules`);
* `src/src/store.py`        — the expansion engine `pack` and the queue drain
  `process_queue` (modelled over an abstract file system);
* `src/main.py`             — the built-in seed board.

Boards appear in two guises, as in the source: the *blob* (the 32-entry byte list
`State.state`) and the *matrix* (the 64-entry nibble list produced by `State.to_matrix`,
row-major with matrix row `r` holding horizon `7 - r`).  Machine bytes are `Nat` with
explicit `% 256` where the numpy `uint8` semantics matter.
-/

namespace D4

/-! ## Board codec (`src/src/core/state.py`) -/

/-- One lowercase hex digit, as produced by Python's `f'{byte:02x}'` formatting. -/
def hexChar (n : Nat) : Char :=
  if n < 10 then Char.ofNat (48 + n) else Char.ofNat (87 + n)

/-- Value of a single hexadecimal digit, as accepted by Python's `int(s, 16)`:
digits `0-9`, and letters of *either* case `a-f` / `A-F`. -/
def hexDigitVal (c : Char) : Option Nat :=
  if 48 ≤ c.toNat ∧ c.toNat ≤ 57 then some (c.toNat - 48)
  else if 97 ≤ c.toNat ∧ c.toNat ≤ 102 then some (c.toNat - 87)
  else if 65 ≤ c.toNat ∧ c.toNat ≤ 70 then some (c.toNat - 55)
  else none

/-- `int(s, 16)` on the (at most two character) slice `hex_str[2*idx : 2*idx + 2]`
taken by `State.from_hex`.  An empty slice is a `ValueError`; a one-character slice
(arising from an odd-length input) parses as a single digit.  The exotic forms `int`
also tolerates (surrounding whitespace, a sign, an `0x` prefix) are not modelled;
no theorem below depends on them. -/
def pyHexSlice (cs : List Char) : Option Nat :=
  match cs with
  | [] => none
  | [c] => hexDigitVal c
  | [c1, c2] =>
      match hexDigitVal c1, hexDigitVal c2 with
      | some v1, some v2 => some (16 * v1 + v2)
      | _, _ => none
  | _ => none

/-- Effectful map over a list in the `Option` monad, failing at the first `none`,
exactly as the `for idx in range(32)` loop of `State.from_hex` raises at the first
malformed byte pair. -/
def optMap (f : Nat → Option Nat) : List Nat → Option (List Nat)
  | [] => some []
  | i :: is =>
      match f i with
      | none => none
      | some v =>
          match optMap f is with
          | none => none
          | some vs => some (v :: vs)

/-- `(flat_matrix[2i] << 4) | flat_matrix[2i+1]` on numpy `uint8` values:
inputs are truncated to bytes, the shift wraps modulo 256, then bitwise or. -/
def byteOf (x y : Nat) : Nat := (((x % 256) <<< 4) % 256) ||| (y % 256)

/-- `State.from_matrix`: pack the 64-nibble row-major matrix into the 32-byte blob. -/
def from_matrix (m : List Nat) : List Nat :=
  (List.range 32).map (fun idx => byteOf (m.getD (2 * idx) 0) (m.getD (2 * idx + 1) 0))

/-- `State.to_matrix`: unpack the 32-byte blob into the 64-nibble row-major matrix;
byte `idx` yields the cells at flat positions `2*idx` (high nibble) and `2*idx+1`
(low nibble). -/
def to_matrix (blob : List Nat) : List Nat :=
  (List.range 32).flatMap (fun idx =>
    let b := blob.getD idx 0
    [((b % 256) &&& 0xF0) >>> 4, (b % 256) &&& 0x0F])

/-- The character stream of `State.to_hex`: two lowercase hex digits per byte. -/
def hexChars : List Nat → List Char
  | [] => []
  | b :: bs => hexChar ((b % 256) / 16) :: hexChar ((b % 256) % 16) :: hexChars bs

/-- `State.to_hex`: `''.join(f'{byte:02x}' for byte in self.state)`. -/
def to_hex (blob : List Nat) : String := String.mk (hexChars blob)

/-- `State.from_hex`: for each of the 32 byte indices, parse the two-character
slice `hex_str[2*idx : 2*idx + 2]` with `int(·, 16)`.  There is no validation
beyond what `int` itself rejects. -/
def from_hex (s : String) : Option (List Nat) :=
  optMap (fun idx => pyHexSlice ((s.data.drop (2 * idx)).take 2)) (List.range 32)

/-! ### Codec lemmas -/

lemma hexDigitVal_hexChar {v : Nat} (hv : v < 16) : hexDigitVal (hexChar v) = some v := by
  interval_cases v <;> decide

lemma byteOf_lt (x y : Nat) : byteOf x y < 256 := by
  have hx : ((x % 256) <<< 4) % 256 < 2 ^ 8 := Nat.mod_lt _ (by norm_num)
  have hy : y % 256 < 2 ^ 8 := Nat.mod_lt _ (by norm_num)
  have := Nat.or_lt_two_pow hx hy
  simpa [byteOf] using this

lemma optMap_map (f : Nat → Option Nat) (g : Nat → Nat) (l : List Nat) :
    optMap f (l.map g) = optMap (fun i => f (g i)) l := by
  induction l with
  | nil => rfl
  | cons x xs ih => simp [optMap, ih]

lemma optMap_congr {f g : Nat → Option Nat} {l : List Nat}
    (h : ∀ i ∈ l, f i = g i) : optMap f l = optMap g l := by
  induction l with
  | nil => rfl
  | cons x xs ih =>
      simp only [optMap, h x (by simp)]
      rw [ih (fun i hi => h i (by simp [hi]))]

/-- Core of the round trip: parsing the hex rendition of a byte list recovers it. -/
lemma optMap_slice_hexChars (bs : List Nat) (hb : ∀ b ∈ bs, b < 256) :
    optMap (fun idx => pyHexSlice (((hexChars bs).drop (2 * idx)).take 2))
      (List.range bs.length) = some bs := by
  induction bs with
  | nil => rfl
  | cons b rest ih =>
      have hb0 : b < 256 := hb b (by simp)
      have hbrest : ∀ x ∈ rest, x < 256 := fun x hx => hb x (by simp [hx])
      have hrange : List.range (rest.length + 1) = 0 :: (List.range rest.length).map Nat.succ :=
        List.range_succ_eq_map rest.length
      simp only [List.length_cons, hrange, optMap, optMap_map]
      have hhead : pyHexSlice (((hexChars (b :: rest)).drop (2 * 0)).take 2) = some b := by
        have hmod : b % 256 = b := Nat.mod_eq_of_lt hb0
        have hdiv : b % 256 / 16 < 16 := by omega
        have hrem : b % 256 % 16 < 16 := by omega
        simp only [hexChars, Nat.mul_zero, List.drop_zero, List.take_succ_cons,
          List.take_zero, pyHexSlice, hexDigitVal_hexChar hdiv, hexDigitVal_hexChar hrem]
        congr 1
        omega
      rw [hhead]
      have htail : optMap (fun i => pyHexSlice (((hexChars (b :: rest)).drop (2 * Nat.succ i)).take 2))
          (List.range rest.length)
          = optMap (fun i => pyHexSlice (((hexChars rest).drop (2 * i)).take 2))
            (List.range rest.length) := by
        apply optMap_congr
        intro i _
        have : 2 * Nat.succ i = (2 * i) + 1 + 1 := by omega
        simp [hexChars, this]
      rw [htail, ih hbrest]

/-- Decoding the hex encoding of any 32-byte blob gives back the blob. -/
lemma from_hex_to_hex (bs : List Nat) (hlen : bs.length = 32) (hb : ∀ b ∈ bs, b < 256) :
    from_hex (to_hex bs) = some bs := by
  have := optMap_slice_hexChars bs hb
  rw [hlen] at this
  simpa [from_hex, to_hex] using this

lemma length_from_matrix (m : List Nat) : (from_matrix m).length = 32 := by
  simp [from_matrix]

lemma from_matrix_lt (m : List Nat) : ∀ b ∈ from_matrix m, b < 256 := by
  intro b hb
  simp only [from_matrix, List.mem_map] at hb
  obtain ⟨i, _, rfl⟩ := hb
  exact byteOf_lt _ _

/-- **C1.** Board codec round-trip: for every 8x8 matrix whose cells are valid 4-bit
codes, packing the matrix into the 32-byte state, rendering the 64-character hex
identifier, and decoding it again yields the same packed state:
`from_hex(to_hex(to_blob(from_matrix(B)))) == from_matrix(B)` (in the source the
`State` object *is* the blob, so `to_blob` is the identity on `State.state`). -/
theorem C1_codec_round_trip (m : List Nat) (hlen : m.length = 64)
    (hcells : ∀ x ∈ m, x < 16) :
    from_hex (to_hex (from_matrix m)) = some (from_matrix m) :=
  from_hex_to_hex (from_matrix m) (length_from_matrix m) (from_matrix_lt m)

/-- The built-in seed board of `src/main.py` (`init_state`), row-major from the top
(matrix row 0 = horizon 7).  Cell codes: VOID=0, light MONOTONE..ANCHOR = 1..6,
dark MONOTONE..ANCHOR = 10..15. -/
def seedMatrix : List Nat :=
  [13, 11, 12, 15, 14, 12, 11, 13] ++
  List.replicate 8 10 ++
  List.replicate 32 0 ++
  List.replicate 8 1 ++
  [4, 2, 3, 5, 6, 3, 2, 4]

/-- Witness for C1: the codec round-trip evaluated on the built-in seed board. -/
theorem C1_codec_round_trip_witness :
    from_hex (to_hex (from_matrix seedMatrix)) = some (from_matrix seedMatrix) :=
  C1_codec_round_trip seedMatrix (by decide) (by decide)

/-! ### C5 — hex decoding performs no lowercase/length validation -/

/-- The character class `[0-9a-f]` that the specification claims is enforced. -/
def isLowerHexChar (c : Char) : Bool :=
  (48 ≤ c.toNat && c.toNat ≤ 57) || (97 ≤ c.toNat && c.toNat ≤ 102)

lemma optMap_isSome {f : Nat → Option Nat} {l : List Nat}
    (h : ∀ i ∈ l, (f i).isSome = true) : (optMap f l).isSome = true := by
  induction l with
  | nil => rfl
  | cons x xs ih =>
      have hx := h x (by simp)
      obtain ⟨v, hv⟩ := Option.isSome_iff_exists.mp hx
      have hxs := ih (fun i hi => h i (by simp [hi]))
      obtain ⟨vs, hvs⟩ := Option.isSome_iff_exists.mp hxs
      simp [optMap, hv, hvs]

/-- **C5 (amended).** `from_hex` performs no lowercase-only or length validation:
it parses the first 64 characters in two-character slices with `int(·, 16)`, which
is case-insensitive, and succeeds on every string whose first 64 characters are hex
digits of either case.  No `MalformedHex` error exists in the code. -/
theorem C5_from_hex_case_insensitive (s : String)
    (hlen : 64 ≤ s.data.length)
    (hhex : ∀ c ∈ s.data.take 64, (hexDigitVal c).isSome = true) :
    (from_hex s).isSome = true := by
  apply optMap_isSome
  intro i hi
  have hi32 : i < 32 := List.mem_range.mp hi
  have h1 : 2 * i < s.data.length := by omega
  have h2 : 2 * i + 1 < s.data.length := by omega
  have hslice : (s.data.drop (2 * i)).take 2 = [s.data[2 * i], s.data[2 * i + 1]] := by
    have hlt : 2 * i + 1 < s.data.length := h2
    have hdrop : s.data.drop (2 * i) = s.data[2 * i] :: s.data.drop (2 * i + 1) := by
      rw [List.drop_eq_getElem_cons h1]
    have hdrop2 : s.data.drop (2 * i + 1) = s.data[2 * i + 1] :: s.data.drop (2 * i + 2) := by
      rw [List.drop_eq_getElem_cons h2]
    rw [hdrop, hdrop2]
    rfl
  have hmem1 : s.data[2 * i] ∈ s.data.take 64 := by
    have hlt : 2 * i < (s.data.take 64).length := by rw [List.length_take]; omega
    have heq : (s.data.take 64)[2 * i] = s.data[2 * i] := List.getElem_take s.data
    rw [← heq]
    exact List.getElem_mem hlt
  have hmem2 : s.data[2 * i + 1] ∈ s.data.take 64 := by
    have hlt : 2 * i + 1 < (s.data.take 64).length := by rw [List.length_take]; omega
    have heq : (s.data.take 64)[2 * i + 1] = s.data[2 * i + 1] := List.getElem_take s.data
    rw [← heq]
    exact List.getElem_mem hlt
  have hv1 := hhex _ hmem1
  have hv2 := hhex _ hmem2
  obtain ⟨v1, hv1⟩ := Option.isSome_iff_exists.mp hv1
  obtain ⟨v2, hv2⟩ := Option.isSome_iff_exists.mp hv2
  simp [hslice, pyHexSlice, hv1, hv2]

/-- Counterexample to **C5** as stated: a string of 64 uppercase `A`s is not made of
lowercase `[0-9a-f]`, yet `from_hex` accepts it (no failure, no `MalformedHex`),
returning the blob of 32 bytes `0xAA`. -/
theorem C5_counterexample_uppercase_accepted :
    from_hex (String.mk (List.replicate 64 'A')) = some (List.replicate 32 170) ∧
    isLowerHexChar 'A' = false := by
  constructor
  · decide
  · decide

/-- Witness for the amended C5, at the 64-uppercase-`A` input. -/
theorem C5_from_hex_case_insensitive_witness :
    (from_hex (String.mk (List.replicate 64 'A'))).isSome = true :=
  C5_from_hex_case_insensitive (String.mk (List.replicate 64 'A'))
    (by decide) (by decide)

/-! ## Move rules (`src/src/core/handler.py`)

A `Handler` is determined by its `matrix` (the 64-nibble list), its `dark_mode`
flag and its `unsafe_anchor` flag; every rule reads only these.  The alternate
handler built inside `all_possible_rules` goes through a hex round trip of the
same state, which by `from_hex_to_hex` reproduces the same blob and hence the same
matrix, so it is embedded as the relaxed-rule sweep over the same matrix.  The
source's `unsafe_anchor` flag is rendered `relaxed` throughout. -/

/-- `ModeCheck` enumeration of `handler.py`. -/
inductive ModeCheck where
  | VOID
  | SAME_MODE
  | DIFFERENT_MODE
deriving DecidableEq

/-- `inbounds`: `0 <= value <= 7`. -/
abbrev inbounds (v : Int) : Prop := 0 ≤ v ∧ v ≤ 7

/-- `matrix[7 - horizon][axis]` on the row-major 64-nibble matrix.  The rules only
evaluate cells at in-bounds coordinates, where this agrees with the Python
indexing. -/
def getCell (m : List Nat) (h a : Int) : Nat :=
  m.getD ((7 - h).toNat * 8 + a.toNat) 0

/-- `Handler.test_mode`: VOID on an empty cell; SAME for a flag strictly on the
moving side of HORIZON (0x8); DIFFERENT otherwise (the HORIZON value 8 itself
is DIFFERENT for both sides, as in the source). -/
def testMode (m : List Nat) (dark : Bool) (h a : Int) : ModeCheck :=
  let flag := getCell m h a
  if flag = 0 then ModeCheck.VOID
  else if (dark ∧ 8 < flag) ∨ (¬dark ∧ flag < 8) then ModeCheck.SAME_MODE
  else ModeCheck.DIFFERENT_MODE

/-- `flag == Flags.Dark_Anchor.value or flag == Flags.Light_Anchor.value`. -/
def isAnchorFlag (f : Nat) : Bool := f = 15 || f = 6

/-- `Handler.rule_monotone`.  In the standard pass: forward push (guarded VOID),
nested double push from the home rank, then the two diagonal captures, in source
order.  In the relaxed (`unsafe_anchor`) pass the two diagonals are returned
unconditionally — with no bounds check, exactly as the source appends them. -/
def ruleMonotone (m : List Nat) (dark relaxed : Bool) (h a : Int) : List (Int × Int) :=
  let o : Int := if dark then -1 else 1
  let fwd := h + o
  if ¬relaxed then
    (if inbounds fwd ∧ testMode m dark fwd a = ModeCheck.VOID then
        (fwd, a) ::
          (if ((dark ∧ h = 6) ∨ (¬dark ∧ h = 1)) ∧ inbounds (fwd + o) ∧
              testMode m dark (fwd + o) a = ModeCheck.VOID
           then [(fwd + o, a)] else [])
      else []) ++
    (if inbounds fwd ∧ inbounds (a - 1) ∧
        testMode m dark fwd (a - 1) = ModeCheck.DIFFERENT_MODE
     then [(fwd, a - 1)] else []) ++
    (if inbounds fwd ∧ inbounds (a + 1) ∧
        testMode m dark fwd (a + 1) = ModeCheck.DIFFERENT_MODE
     then [(fwd, a + 1)] else [])
  else [(fwd, a - 1), (fwd, a + 1)]

/-- The eight L-shaped offsets of `Handler.rule_pivot`, in source order. -/
def pivotOffsets : List (Int × Int) :=
  [(2, 1), (2, -1), (-2, 1), (-2, -1), (1, 2), (1, -2), (-1, 2), (-1, -2)]

/-- `Handler.rule_pivot`: include an offset target iff in bounds and
(not SAME, or in the relaxed pass). -/
def rulePivot (m : List Nat) (dark relaxed : Bool) (h a : Int) : List (Int × Int) :=
  pivotOffsets.filterMap (fun od =>
    let nh := h + od.1
    let na := a + od.2
    if inbounds nh ∧ inbounds na ∧
        (testMode m dark nh na ≠ ModeCheck.SAME_MODE ∨ relaxed = true)
    then some (nh, na) else none)

/-- One ray of `Handler.compute_rules`.  The fuel argument only bounds the
iteration count; a ray over the 8x8 board walks at most 8 in-bounds steps before
the boundary check breaks, so the fuel of 16 used below is never exhausted
(orientation vectors are never `(0, 0)`).  On SAME: include iff relaxed, stop.
On DIFFERENT: include; in the relaxed pass continue through an Anchor flag,
otherwise stop.  On VOID: include and continue. -/
def rayWalk (m : List Nat) (dark relaxed : Bool) (dh da : Int) :
    Nat → Int → Int → List (Int × Int)
  | 0, _, _ => []
  | fuel + 1, h, a =>
    let nh := h + dh
    let na := a + da
    if inbounds nh ∧ inbounds na then
      match testMode m dark nh na with
      | ModeCheck.SAME_MODE => if relaxed then [(nh, na)] else []
      | ModeCheck.DIFFERENT_MODE =>
          if relaxed ∧ isAnchorFlag (getCell m nh na) = true then
            (nh, na) :: rayWalk m dark relaxed dh da fuel nh na
          else [(nh, na)]
      | ModeCheck.VOID => (nh, na) :: rayWalk m dark relaxed dh da fuel nh na
    else []

/-- `Handler.compute_rules`: union of the rays in the given orientation order. -/
def computeRules (m : List Nat) (dark relaxed : Bool) (h a : Int)
    (orientations : List (Int × Int)) : List (Int × Int) :=
  orientations.flatMap (fun o => rayWalk m dark relaxed o.1 o.2 16 h a)

/-- `Handler.rule_slope`: the four diagonal rays. -/
def ruleSlope (m : List Nat) (dark relaxed : Bool) (h a : Int) : List (Int × Int) :=
  computeRules m dark relaxed h a [(-1, -1), (-1, 1), (1, -1), (1, 1)]

/-- `Handler.rule_stride`: the four orthogonal rays. -/
def ruleStride (m : List Nat) (dark relaxed : Bool) (h a : Int) : List (Int × Int) :=
  computeRules m dark relaxed h a [(-1, 0), (1, 0), (0, -1), (0, 1)]

/-- `Handler.rule_radius`: all eight rays. -/
def ruleRadius (m : List Nat) (dark relaxed : Bool) (h a : Int) : List (Int × Int) :=
  computeRules m dark relaxed h a
    [(-1, 0), (1, 0), (0, -1), (0, 1), (-1, -1), (-1, 1), (1, -1), (1, 1)]

/-- The eight king offsets of `Handler.rule_anchor`, in source order. -/
def anchorOffsets : List (Int × Int) :=
  [(-1, 0), (1, 0), (0, -1), (0, 1), (-1, -1), (-1, 1), (1, -1), (1, 1)]

/-- The `is_safe` loop of `rule_anchor` / the in-check test of
`all_possible_rules`: whether a coordinate occurs among the destinations of any
entry of the alternate (relaxed) rule table. -/
def underThreat (alt : List ((Int × Int) × List (Int × Int))) (p : Int × Int) : Bool :=
  alt.any (fun e => decide (p ∈ e.2))

/-- `Handler.rule_anchor`: one step in any direction, not SAME, and not listed in
the alternate handler's rule table.  A handler whose `alternate_handler` is `None`
(the relaxed pass) is modelled by `alt = []`, for which the safety filter is
vacuous exactly as `is_safe` stays `True` in the source. -/
def ruleAnchor (m : List Nat) (dark : Bool)
    (alt : List ((Int × Int) × List (Int × Int))) (h a : Int) : List (Int × Int) :=
  anchorOffsets.filterMap (fun od =>
    let nh := h + od.1
    let na := a + od.2
    if inbounds nh ∧ inbounds na ∧ testMode m dark nh na ≠ ModeCheck.SAME_MODE ∧
        underThreat alt (nh, na) = false
    then some (nh, na) else none)

/-- The flag dispatch of the sweep in `Handler.all_possible_rules`: only SAME cells
produce an entry, and only when the flag is one of the six piece kinds (light
`1..6`, dark `10..15`), in the source's test order. -/
def dispatchRule (m : List Nat) (dark relaxed : Bool)
    (alt : List ((Int × Int) × List (Int × Int))) (h a : Int) :
    Option (List (Int × Int)) :=
  if testMode m dark h a = ModeCheck.SAME_MODE then
    let flag := getCell m h a
    if flag = 10 ∨ flag = 1 then some (ruleMonotone m dark relaxed h a)
    else if flag = 11 ∨ flag = 2 then some (rulePivot m dark relaxed h a)
    else if flag = 12 ∨ flag = 3 then some (ruleSlope m dark relaxed h a)
    else if flag = 13 ∨ flag = 4 then some (ruleStride m dark relaxed h a)
    else if flag = 14 ∨ flag = 5 then some (ruleRadius m dark relaxed h a)
    else if flag = 15 ∨ flag = 6 then some (ruleAnchor m dark alt h a)
    else none
  else none

/-- The traversal order of `all_possible_rules`: horizon 0..7 outer, axis 0..7
inner. -/
def boardCoords : List (Int × Int) :=
  (List.range 8).flatMap (fun h => (List.range 8).map (fun a => ((h : Int), (a : Int))))

/-- The full sweep of `all_possible_rules` (both passes share it; the relaxed pass
runs it with `relaxed = true` and an empty alternate table). -/
def sweepRules (m : List Nat) (dark relaxed : Bool)
    (alt : List ((Int × Int) × List (Int × Int))) :
    List ((Int × Int) × List (Int × Int)) :=
  boardCoords.filterMap (fun c =>
    (dispatchRule m dark relaxed alt c.1 c.2).map (fun ds => (c, ds)))

/-- The relaxed (`unsafe_anchor=True`) handler's `all_possible_rules`: it skips the
anchor-safety preamble and just sweeps. -/
def relaxedAllRules (m : List Nat) (dark : Bool) :
    List ((Int × Int) × List (Int × Int)) :=
  sweepRules m dark true []

/-- The anchor-search loop of `all_possible_rules`: first SAME-mode Anchor cell in
traversal order, if any. -/
def anchorScan (m : List Nat) (dark : Bool) : Option (Int × Int) :=
  boardCoords.find? (fun c =>
    decide (testMode m dark c.1 c.2 = ModeCheck.SAME_MODE) && isAnchorFlag (getCell m c.1 c.2))

/-- `Handler.all_possible_rules` for a standard (non-relaxed) handler: compute the
opponent's relaxed rule table; if the own anchor's square occurs in it, return only
the anchor's entry; otherwise sweep all own pieces, anchors being filtered against
the same alternate table. -/
def allPossibleRules (m : List Nat) (dark : Bool) :
    List ((Int × Int) × List (Int × Int)) :=
  let alt := relaxedAllRules m (!dark)
  match anchorScan m dark with
  | some c =>
      if underThreat alt c then [(c, ruleAnchor m dark alt c.1 c.2)]
      else sweepRules m dark false alt
  | none => sweepRules m dark false alt

/-! ### C7 — relaxed-pass Monotone rule -/

/-- **C7.** In the relaxed (`unsafe_anchor`) pass, a Monotone of the moving side at
`(h, a)` yields exactly the two diagonal forward squares `(h+o, a-1)` and
`(h+o, a+1)` (`o` the side's forward orientation), irrespective of the board —
both included regardless of occupant, and never any forward push. -/
theorem C7_relaxed_monotone_diagonals (m : List Nat) (dark : Bool) (h a : Int)
    (hocc : getCell m h a = (if dark then 10 else 1)) :
    ruleMonotone m dark true h a =
      [(h + (if dark then (-1 : Int) else 1), a - 1),
       (h + (if dark then (-1 : Int) else 1), a + 1)] := by
  cases dark <;> simp [ruleMonotone]

/-- Board with a single light Monotone on `(1, 0)` (matrix index 48). -/
def bMono : List Nat := List.replicate 48 0 ++ 1 :: List.replicate 15 0

/-- Witness for C7: the light Monotone on `(1, 0)` contributes, in the relaxed
pass, exactly its two forward diagonals — including the off-board `(2, -1)`,
which the source appends unchecked. -/
theorem C7_relaxed_monotone_diagonals_witness :
    ruleMonotone bMono false true 1 0 = [(2, -1), (2, 1)] := by
  have h := C7_relaxed_monotone_diagonals bMono false 1 0 (by decide)
  simpa using h

/-! ### C8 — Monotone last-rank boundary (ranks swapped in the claim) -/

/-- Board with a single light Monotone on `(0, 0)` (matrix index 56). -/
def bMono0 : List Nat := List.replicate 56 0 ++ 1 :: List.replicate 7 0

/-- Counterexample to **C8** as stated: a light Monotone on horizon 0 does *not*
have zero forward pushes — light advances in the `+horizon` direction, so from
`(0, 0)` the standard rule emits the forward push `(1, 0)`. -/
theorem C8_counterexample_light_monotone_horizon0 :
    getCell bMono0 0 0 = 1 ∧
    ((1 : Int), (0 : Int)) ∈ ruleMonotone bMono0 false false 0 0 := by
  constructor
  · decide
  · decide

/-- **C8 (amended).** The far rank in each side's direction of motion is where
pushes vanish: for every board, a light Monotone on horizon 7 and a dark Monotone
on horizon 0 have zero forward pushes in the standard rule — indeed no moves at
all, because neither the forward square nor either forward diagonal is in bounds
(no promotion is modelled). -/
theorem C8_far_rank_monotone_no_moves (m : List Nat) (a : Int) :
    ruleMonotone m false false 7 a = [] ∧ ruleMonotone m true false 0 a = [] := by
  constructor <;> norm_num [ruleMonotone, inbounds]

/-! ### C2 — in check, only anchor moves -/

/-- **C2.** If the moving side's anchor square (the first SAME-mode Anchor in
traversal order) occurs in the opponent's relaxed-rule destination table computed
from the same board, `all_possible_rules` returns exactly one entry, whose source
is the anchor's square. -/
theorem C2_in_check_only_anchor_entry (m : List Nat) (dark : Bool) (c : Int × Int)
    (hscan : anchorScan m dark = some c)
    (hthreat : underThreat (relaxedAllRules m (!dark)) c = true) :
    allPossibleRules m dark =
      [(c, ruleAnchor m dark (relaxedAllRules m (!dark)) c.1 c.2)] := by
  simp [allPossibleRules, hscan, hthreat]

/-- Scenario S4 of the specification: light Anchor on `(0, 4)` (index 60), dark
Radius on `(4, 4)` (index 28). -/
def bS4 : List Nat :=
  List.replicate 28 0 ++ 14 :: (List.replicate 31 0 ++ 6 :: List.replicate 3 0)

/-- Witness for C2 at scenario S4: light is in check by the Radius, and the move
table is the single anchor entry. -/
theorem C2_in_check_only_anchor_entry_witness :
    allPossibleRules bS4 false =
      [(((0 : Int), (4 : Int)),
        ruleAnchor bS4 false (relaxedAllRules bS4 (!false)) 0 4)] :=
  C2_in_check_only_anchor_entry bS4 false (0, 4) (by decide) (by decide)

/-! ### C3 — anchor destinations avoid the opponent's relaxed set -/

lemma mem_ruleAnchor_not_threatened {m : List Nat} {dark : Bool}
    {alt : List ((Int × Int) × List (Int × Int))} {h a : Int} {d : Int × Int}
    (hd : d ∈ ruleAnchor m dark alt h a) : underThreat alt d = false := by
  simp only [ruleAnchor, List.mem_filterMap] at hd
  obtain ⟨od, _, hif⟩ := hd
  split at hif
  · rename_i hcond
    obtain rfl : (h + od.1, a + od.2) = d := by injection hif
    exact hcond.2.2.2
  · exact absurd hif (by simp)

lemma sweepRules_mem {m : List Nat} {dark rel : Bool}
    {alt : List ((Int × Int) × List (Int × Int))} {src : Int × Int}
    {ds : List (Int × Int)}
    (hmem : (src, ds) ∈ sweepRules m dark rel alt) :
    src ∈ boardCoords ∧ dispatchRule m dark rel alt src.1 src.2 = some ds := by
  simp only [sweepRules, List.mem_filterMap] at hmem
  obtain ⟨c, hc, hmap⟩ := hmem
  rw [Option.map_eq_some'] at hmap
  obtain ⟨ds', hds', heq⟩ := hmap
  obtain ⟨rfl, rfl⟩ := Prod.mk.injEq .. ▸ heq
  exact ⟨hc, hds'⟩

lemma dispatch_anchor_eq {m : List Nat} {dark rel : Bool}
    {alt : List ((Int × Int) × List (Int × Int))} {h a : Int}
    {ds : List (Int × Int)}
    (hflag : isAnchorFlag (getCell m h a) = true)
    (hdisp : dispatchRule m dark rel alt h a = some ds) :
    ds = ruleAnchor m dark alt h a := by
  have hf : getCell m h a = 15 ∨ getCell m h a = 6 := by
    simpa [isAnchorFlag] using hflag
  rcases hf with hf | hf <;> simp only [dispatchRule, hf] at hdisp <;>
    · split at hdisp
      · norm_num at hdisp
        exact hdisp.symm
      · exact absurd hdisp (by simp)

/-- **C3.** Anchor-safety invariant: every destination listed for an Anchor-flagged
source in the output of the standard `all_possible_rules` is absent from the
opponent's relaxed-rule destination table computed for the same board. -/
theorem C3_anchor_destinations_not_threatened (m : List Nat) (dark : Bool)
    (src d : Int × Int) (ds : List (Int × Int))
    (hmem : (src, ds) ∈ allPossibleRules m dark)
    (hflag : isAnchorFlag (getCell m src.1 src.2) = true)
    (hd : d ∈ ds) :
    underThreat (relaxedAllRules m (!dark)) d = false := by
  rcases hscan : anchorScan m dark with _ | c
  · simp only [allPossibleRules, hscan] at hmem
    obtain ⟨-, hdisp⟩ := sweepRules_mem hmem
    have := dispatch_anchor_eq hflag hdisp
    subst this
    exact mem_ruleAnchor_not_threatened hd
  · simp only [allPossibleRules, hscan] at hmem
    split at hmem
    · rw [List.mem_singleton] at hmem
      obtain ⟨rfl, rfl⟩ := Prod.mk.injEq .. ▸ hmem
      exact mem_ruleAnchor_not_threatened hd
    · obtain ⟨-, hdisp⟩ := sweepRules_mem hmem
      have := dispatch_anchor_eq hflag hdisp
      subst this
      exact mem_ruleAnchor_not_threatened hd

/-- Scenario S2 of the specification: light Anchor on `(3, 3)` (index 35), dark
Anchor on `(7, 7)` (index 7). -/
def bS2 : List Nat :=
  List.replicate 7 0 ++ 15 :: (List.replicate 27 0 ++ 6 :: List.replicate 28 0)

/-- Witness for C3 at scenario S2: the light anchor's destination `(4, 4)` is not
in dark's relaxed destination table. -/
theorem C3_anchor_destinations_not_threatened_witness :
    underThreat (relaxedAllRules bS2 (!false)) ((4 : Int), (4 : Int)) = false :=
  C3_anchor_destinations_not_threatened bS2 false (3, 3) (4, 4)
    [(2, 3), (4, 3), (3, 2), (3, 4), (2, 2), (2, 4), (4, 2), (4, 4)]
    (by decide) (by decide) (by decide)

/-! ### C4 — successor-construction frame property (`pack`, `src/src/store.py`)

`pack` builds each successor matrix by copying the handler's matrix, voiding the
source cell, and writing the moved flag into the destination cell:
`source_matrix[7-h][a] = VOID; new_matrix[7-nh][na] = flag`. -/

/-- Flat index `(7 - horizon) * 8 + axis` of a coordinate in the row-major
64-nibble matrix. -/
def cellIndex (h a : Int) : Nat := (7 - h).toNat * 8 + a.toNat

lemma getCell_eq_getD (m : List Nat) (h a : Int) :
    getCell m h a = m.getD (cellIndex h a) 0 := rfl

lemma cellIndex_lt {h a : Int} (hh : inbounds h) (ha : inbounds a) :
    cellIndex h a < 64 := by
  unfold cellIndex
  unfold inbounds at hh ha
  omega

lemma cellIndex_inj {h a h' a' : Int} (hh : inbounds h) (ha : inbounds a)
    (hh' : inbounds h') (ha' : inbounds a')
    (heq : cellIndex h a = cellIndex h' a') : h = h' ∧ a = a' := by
  unfold cellIndex at heq
  unfold inbounds at hh ha hh' ha'
  omega

/-- The successor board `pack` serialises for the move `src → dst`:
source cell voided, moved flag written at the destination. -/
def successorMatrix (m : List Nat) (src dst : Int × Int) : List Nat :=
  (m.set (cellIndex src.1 src.2) 0).set (cellIndex dst.1 dst.2)
    (getCell m src.1 src.2)

lemma getD_set_self {l : List Nat} {i : Nat} {v : Nat} (h : i < l.length) :
    (l.set i v).getD i 0 = v := by
  rw [List.getD_eq_getElem?_getD, List.getElem?_set_self (by simpa using h)]
  rfl

lemma getD_set_ne {l : List Nat} {i j : Nat} {v : Nat} (h : i ≠ j) :
    (l.set i v).getD j 0 = l.getD j 0 := by
  rw [List.getD_eq_getElem?_getD, List.getElem?_set_ne h, ← List.getD_eq_getElem?_getD]

/-! Destination properties of the standard rules: every emitted destination is in
bounds and differs from the source square. -/

lemma boardCoords_inbounds : ∀ c ∈ boardCoords, inbounds c.1 ∧ inbounds c.2 := by
  decide

lemma mem_ite_nil {P : Prop} [Decidable P] {l : List (Int × Int)} {x : Int × Int}
    (hx : x ∈ if P then l else []) : P ∧ x ∈ l := by
  split at hx
  · exact ⟨by assumption, hx⟩
  · simp at hx

lemma rayWalk_mem_aux {m : List Nat} {dark rel : Bool} {dh da : Int} :
    ∀ (fuel : Nat) (h a : Int) (d : Int × Int),
      d ∈ rayWalk m dark rel dh da fuel h a →
      inbounds d.1 ∧ inbounds d.2 ∧
        ∃ k : Nat, 1 ≤ k ∧ d.1 = h + k * dh ∧ d.2 = a + k * da := by
  intro fuel
  induction fuel with
  | zero => intro h a d hd; simp [rayWalk] at hd
  | succ n ih =>
      intro h a d hd
      simp only [rayWalk] at hd
      split at hd
      · rename_i hb
        split at hd
        · split at hd
          · rw [List.mem_singleton] at hd
            subst hd
            exact ⟨hb.1, hb.2, 1, le_refl 1, by push_cast; ring, by push_cast; ring⟩
          · simp at hd
        · split at hd
          · rw [List.mem_cons] at hd
            rcases hd with rfl | hd
            · exact ⟨hb.1, hb.2, 1, le_refl 1, by push_cast; ring, by push_cast; ring⟩
            · obtain ⟨h1, h2, k, hk, e1, e2⟩ := ih _ _ _ hd
              refine ⟨h1, h2, k + 1, by omega, ?_, ?_⟩
              · rw [e1]; push_cast; ring
              · rw [e2]; push_cast; ring
          · rw [List.mem_singleton] at hd
            subst hd
            exact ⟨hb.1, hb.2, 1, le_refl 1, by push_cast; ring, by push_cast; ring⟩
        · rw [List.mem_cons] at hd
          rcases hd with rfl | hd
          · exact ⟨hb.1, hb.2, 1, le_refl 1, by push_cast; ring, by push_cast; ring⟩
          · obtain ⟨h1, h2, k, hk, e1, e2⟩ := ih _ _ _ hd
            refine ⟨h1, h2, k + 1, by omega, ?_, ?_⟩
            · rw [e1]; push_cast; ring
            · rw [e2]; push_cast; ring
      · simp at hd

lemma rayWalk_props {m : List Nat} {dark rel : Bool} {dh da : Int} {fuel : Nat}
    {h a : Int} {d : Int × Int} (hdir : ¬(dh = 0 ∧ da = 0))
    (hd : d ∈ rayWalk m dark rel dh da fuel h a) :
    inbounds d.1 ∧ inbounds d.2 ∧ d ≠ (h, a) := by
  obtain ⟨h1, h2, k, hk, e1, e2⟩ := rayWalk_mem_aux fuel h a d hd
  refine ⟨h1, h2, ?_⟩
  rintro rfl
  simp only at e1 e2
  have h3 : (k : Int) * dh = 0 := by linarith
  have h4 : (k : Int) * da = 0 := by linarith
  have hk0 : (k : Int) ≠ 0 := by positivity
  exact hdir ⟨by simpa [hk0] using mul_eq_zero.mp h3,
    by simpa [hk0] using mul_eq_zero.mp h4⟩

lemma computeRules_props {m : List Nat} {dark rel : Bool} {h a : Int}
    {d : Int × Int} {os : List (Int × Int)}
    (hos : ∀ o ∈ os, ¬(o.1 = 0 ∧ o.2 = 0))
    (hd : d ∈ computeRules m dark rel h a os) :
    inbounds d.1 ∧ inbounds d.2 ∧ d ≠ (h, a) := by
  simp only [computeRules, List.mem_flatMap] at hd
  obtain ⟨o, ho, hmem⟩ := hd
  exact rayWalk_props (hos o ho) hmem

lemma ruleMonotone_std_props {m : List Nat} {dark : Bool} {h a : Int}
    {d : Int × Int} (ha : inbounds a)
    (hd : d ∈ ruleMonotone m dark false h a) :
    inbounds d.1 ∧ inbounds d.2 ∧ d ≠ (h, a) := by
  simp only [ruleMonotone, Bool.false_eq_true, not_false_eq_true, if_true,
    List.append_eq, List.mem_append] at hd
  set o : Int := if dark then (-1 : Int) else 1 with hodef
  have hno : o ≠ 0 := by cases dark <;> simp [hodef]
  rcases hd with (hd | hd) | hd
  · obtain ⟨hc1, hd⟩ := mem_ite_nil hd
    rw [List.mem_cons] at hd
    rcases hd with rfl | hd
    · exact ⟨hc1.1, ha, by simp only [ne_eq, Prod.mk.injEq, not_and]; intro he; omega⟩
    · obtain ⟨hc2, hd⟩ := mem_ite_nil hd
      rw [List.mem_singleton] at hd
      subst hd
      exact ⟨hc2.2.1, ha, by simp only [ne_eq, Prod.mk.injEq, not_and]; intro he; omega⟩
  · obtain ⟨hc3, hd⟩ := mem_ite_nil hd
    rw [List.mem_singleton] at hd
    subst hd
    exact ⟨hc3.1, hc3.2.1, by simp only [ne_eq, Prod.mk.injEq, not_and]; intro he; omega⟩
  · obtain ⟨hc4, hd⟩ := mem_ite_nil hd
    rw [List.mem_singleton] at hd
    subst hd
    exact ⟨hc4.1, hc4.2.1, by simp only [ne_eq, Prod.mk.injEq, not_and]; intro he; omega⟩

lemma rulePivot_props {m : List Nat} {dark rel : Bool} {h a : Int}
    {d : Int × Int} (hd : d ∈ rulePivot m dark rel h a) :
    inbounds d.1 ∧ inbounds d.2 ∧ d ≠ (h, a) := by
  simp only [rulePivot, List.mem_filterMap] at hd
  obtain ⟨od, hod, hif⟩ := hd
  have hne : ¬(od.1 = 0 ∧ od.2 = 0) := by
    fin_cases hod <;> simp
  split at hif
  · rename_i hc
    obtain rfl : (h + od.1, a + od.2) = d := Option.some.inj hif
    refine ⟨hc.1, hc.2.1, ?_⟩
    simp only [ne_eq, Prod.mk.injEq, not_and]
    intro h1 h2
    exact hne ⟨by omega, by omega⟩
  · exact absurd hif (by simp)

lemma ruleAnchor_props {m : List Nat} {dark : Bool}
    {alt : List ((Int × Int) × List (Int × Int))} {h a : Int}
    {d : Int × Int} (hd : d ∈ ruleAnchor m dark alt h a) :
    inbounds d.1 ∧ inbounds d.2 ∧ d ≠ (h, a) := by
  simp only [ruleAnchor, List.mem_filterMap] at hd
  obtain ⟨od, hod, hif⟩ := hd
  have hne : ¬(od.1 = 0 ∧ od.2 = 0) := by
    fin_cases hod <;> simp
  split at hif
  · rename_i hc
    obtain rfl : (h + od.1, a + od.2) = d := Option.some.inj hif
    refine ⟨hc.1, hc.2.1, ?_⟩
    simp only [ne_eq, Prod.mk.injEq, not_and]
    intro h1 h2
    exact hne ⟨by omega, by omega⟩
  · exact absurd hif (by simp)

lemma slopeOrients_ne : ∀ o ∈ [((-1 : Int), (-1 : Int)), (-1, 1), (1, -1), (1, 1)],
    ¬(o.1 = 0 ∧ o.2 = 0) := by decide

lemma strideOrients_ne : ∀ o ∈ [((-1 : Int), (0 : Int)), (1, 0), (0, -1), (0, 1)],
    ¬(o.1 = 0 ∧ o.2 = 0) := by decide

lemma radiusOrients_ne : ∀ o ∈ [((-1 : Int), (0 : Int)), (1, 0), (0, -1), (0, 1),
    (-1, -1), (-1, 1), (1, -1), (1, 1)], ¬(o.1 = 0 ∧ o.2 = 0) := by decide

lemma dispatch_dests_props {m : List Nat} {dark : Bool}
    {alt : List ((Int × Int) × List (Int × Int))} {h a : Int}
    {ds : List (Int × Int)} {d : Int × Int} (ha : inbounds a)
    (hdisp : dispatchRule m dark false alt h a = some ds) (hd : d ∈ ds) :
    inbounds d.1 ∧ inbounds d.2 ∧ d ≠ (h, a) := by
  simp only [dispatchRule] at hdisp
  split at hdisp
  · split at hdisp
    · obtain rfl := Option.some.inj hdisp
      exact ruleMonotone_std_props ha hd
    · split at hdisp
      · obtain rfl := Option.some.inj hdisp
        exact rulePivot_props hd
      · split at hdisp
        · obtain rfl := Option.some.inj hdisp
          exact computeRules_props slopeOrients_ne hd
        · split at hdisp
          · obtain rfl := Option.some.inj hdisp
            exact computeRules_props strideOrients_ne hd
          · split at hdisp
            · obtain rfl := Option.some.inj hdisp
              exact computeRules_props radiusOrients_ne hd
            · split at hdisp
              · obtain rfl := Option.some.inj hdisp
                exact ruleAnchor_props hd
              · exact absurd hdisp (by simp)
  · exact absurd hdisp (by simp)

/-- Every entry of the standard `all_possible_rules` has an in-bounds source, and
all its destinations are in bounds and differ from the source. -/
lemma allPossibleRules_entry_props {m : List Nat} {dark : Bool}
    {src : Int × Int} {ds : List (Int × Int)}
    (hmem : (src, ds) ∈ allPossibleRules m dark) :
    inbounds src.1 ∧ inbounds src.2 ∧
      ∀ d ∈ ds, inbounds d.1 ∧ inbounds d.2 ∧ d ≠ src := by
  have hsweep : (src, ds) ∈ sweepRules m dark false (relaxedAllRules m (!dark)) →
      inbounds src.1 ∧ inbounds src.2 ∧
        ∀ d ∈ ds, inbounds d.1 ∧ inbounds d.2 ∧ d ≠ src := by
    intro hsw
    obtain ⟨hc, hdisp⟩ := sweepRules_mem hsw
    obtain ⟨h1, h2⟩ := boardCoords_inbounds src hc
    refine ⟨h1, h2, fun d hd => ?_⟩
    have := dispatch_dests_props h2 hdisp hd
    simpa using this
  rcases hscan : anchorScan m dark with _ | c
  · simp only [allPossibleRules, hscan] at hmem
    exact hsweep hmem
  · simp only [allPossibleRules, hscan] at hmem
    split at hmem
    · rw [List.mem_singleton] at hmem
      have hcmem : c ∈ boardCoords := List.mem_of_find?_eq_some hscan
      have hcb := boardCoords_inbounds c hcmem
      obtain ⟨rfl, rfl⟩ := Prod.mk.injEq .. ▸ hmem
      refine ⟨hcb.1, hcb.2, fun d hd => ?_⟩
      have := ruleAnchor_props hd
      simpa using this
    · exact hsweep hmem

/-- **C4.** Successor-construction frame property: for every move `(src, dst)`
emitted by the standard move enumeration that `pack` serialises, the successor
board has VOID at `src`, the moved piece's flag at `dst` (overwriting any captured
piece), and every other in-bounds cell unchanged. -/
theorem C4_successor_frame (m : List Nat) (dark : Bool)
    (src dst : Int × Int) (ds : List (Int × Int))
    (hlen : m.length = 64)
    (hmem : (src, ds) ∈ allPossibleRules m dark)
    (hd : dst ∈ ds) :
    getCell (successorMatrix m src dst) src.1 src.2 = 0 ∧
    getCell (successorMatrix m src dst) dst.1 dst.2 = getCell m src.1 src.2 ∧
    ∀ p : Int × Int, inbounds p.1 → inbounds p.2 → p ≠ src → p ≠ dst →
      getCell (successorMatrix m src dst) p.1 p.2 = getCell m p.1 p.2 := by
  obtain ⟨hs1, hs2, hdests⟩ := allPossibleRules_entry_props hmem
  obtain ⟨hd1, hd2, hdne⟩ := hdests dst hd
  have hidx_ne : cellIndex dst.1 dst.2 ≠ cellIndex src.1 src.2 := by
    intro he
    obtain ⟨e1, e2⟩ := cellIndex_inj hd1 hd2 hs1 hs2 he
    exact hdne (Prod.ext e1 e2)
  have hsrc_lt : cellIndex src.1 src.2 < m.length := by
    rw [hlen]; exact cellIndex_lt hs1 hs2
  have hdst_lt : cellIndex dst.1 dst.2 < (m.set (cellIndex src.1 src.2) 0).length := by
    rw [List.length_set, hlen]; exact cellIndex_lt hd1 hd2
  refine ⟨?_, ?_, ?_⟩
  · rw [getCell_eq_getD, successorMatrix, getD_set_ne hidx_ne, getD_set_self hsrc_lt]
  · rw [getCell_eq_getD, successorMatrix, getD_set_self hdst_lt]
  · intro p hp1 hp2 hpsrc hpdst
    have hne1 : cellIndex dst.1 dst.2 ≠ cellIndex p.1 p.2 := by
      intro he
      obtain ⟨e1, e2⟩ := cellIndex_inj hd1 hd2 hp1 hp2 he
      exact hpdst (Prod.ext e1.symm e2.symm)
    have hne2 : cellIndex src.1 src.2 ≠ cellIndex p.1 p.2 := by
      intro he
      obtain ⟨e1, e2⟩ := cellIndex_inj hs1 hs2 hp1 hp2 he
      exact hpsrc (Prod.ext e1.symm e2.symm)
    rw [getCell_eq_getD, successorMatrix, getD_set_ne hne1, getD_set_ne hne2,
      ← getCell_eq_getD]

/-- Witness for C4 at scenario S2: moving the light anchor `(3,3) → (4,4)` voids
the source, carries flag 6 to the destination, and leaves the dark anchor's cell
`(7,7)` unchanged. -/
theorem C4_successor_frame_witness :
    getCell (successorMatrix bS2 (3, 3) (4, 4)) 3 3 = 0 ∧
    getCell (successorMatrix bS2 (3, 3) (4, 4)) 4 4 = getCell bS2 3 3 ∧
    getCell (successorMatrix bS2 (3, 3) (4, 4)) 7 7 = getCell bS2 7 7 := by
  have h := C4_successor_frame bS2 false (3, 3) (4, 4)
    [(2, 3), (4, 3), (3, 2), (3, 4), (2, 2), (2, 4), (4, 2), (4, 4)]
    (by decide) (by decide) (by decide)
  exact ⟨h.1, h.2.1, h.2.2 (7, 7) (by norm_num [inbounds]) (by norm_num [inbounds])
    (by decide) (by decide)⟩

/-! ### C9 — built-in seed identity (`src/main.py`) -/

/-- Counterexample to **C9** as stated: the seed's hex identifier begins
`dbcfecbd`, not `dbcefcbd`, because the built-in seed places the dark ANCHOR
(0xF) on axis 3 and the dark RADIUS (0xE) on axis 4 of horizon 7 — the mirror of
the light arrangement, not the standard same-file placement claimed by the spec
(`(7,4)` holds 14, the dark Radius). -/
theorem C9_counterexample_seed_layout :
    (to_hex (from_matrix seedMatrix)).data.take 8 = "dbcfecbd".data ∧
    "dbcfecbd".data ≠ "dbcefcbd".data ∧
    getCell seedMatrix 7 4 = 14 ∧ getCell seedMatrix 7 3 = 15 := by
  refine ⟨by decide, by decide, by decide, by decide⟩

/-- **C9 (amended).** The seed bootstrapped on first run is the
back-ranks-and-pawns arrangement with the light anchor on `(0,4)` and the dark
anchor on `(7,3)` (dark's anchor/radius mirrored relative to standard chess), and
its 64-character identifier is
`dbcfecbd aaaaaaaa 00000000 00000000 00000000 00000000 11111111 42356324`. -/
theorem C9_seed_identity :
    to_hex (from_matrix seedMatrix) =
      "dbcfecbdaaaaaaaa000000000000000000000000000000001111111142356324" ∧
    getCell seedMatrix 0 4 = 6 ∧ getCell seedMatrix 7 3 = 15 := by
  refine ⟨by decide, by decide, by decide⟩

/-! ### C10 — empty move table still packs and deduplicates (`pack`) -/

/-- The coordinate byte `(horizon << 4) | axis` of `pack`. -/
def packByte (c : Int × Int) : Nat := (c.1.toNat <<< 4) ||| c.2.toNat

/-- Result of one `pack` call over the abstract store.  Store files are keyed by
`(dark_mode, hex identifier)`; `partitioned_filename` maps that key injectively to
the on-disk path, so path existence is modelled by key membership. -/
structure PackResult where
  files : List (Bool × String)
  processed : Bool
  storeBytes : List Nat
  enqueued : List (List Nat)

/-- `pack` (`src/src/store.py`): if this position's store file exists, return
`False` with no side effect.  Otherwise the file is created (by `open(_, 'wb')`,
before any record is produced — so it exists afterwards even if no move is
emitted), one 35-byte record `(0x78, source, destination, successor blob)` is
appended per legal move, and each successor whose store file under the opposite
colour does not exist is appended to the opposite colour's queue. -/
def packModel (m : List Nat) (dark : Bool) (files : List (Bool × String)) :
    PackResult :=
  let hex := to_hex (from_matrix m)
  if (dark, hex) ∈ files then ⟨files, false, [], []⟩
  else
    let moves := allPossibleRules m dark
    ⟨(dark, hex) :: files, true,
      moves.flatMap (fun e => e.2.flatMap (fun d =>
        0x78 :: packByte e.1 :: packByte d :: from_matrix (successorMatrix m e.1 d))),
      moves.flatMap (fun e => e.2.filterMap (fun d =>
        let nb := from_matrix (successorMatrix m e.1 d)
        if (!dark, to_hex nb) ∈ files then none else some nb))⟩

/-- **C10.** If the legal-move enumeration yields no destination at all, `pack`
still creates the position's store file — of length 0, with no queue write — and
every subsequent `pack` of the same `(side, identifier)` returns the
already-packed signal, the empty file acting as the dedup witness. -/
theorem C10_empty_table_packs_and_dedups (m : List Nat) (dark : Bool)
    (files : List (Bool × String))
    (hempty : ∀ e ∈ allPossibleRules m dark, e.2 = [])
    (hnew : (dark, to_hex (from_matrix m)) ∉ files) :
    (packModel m dark files).processed = true ∧
    (packModel m dark files).storeBytes = [] ∧
    (packModel m dark files).enqueued = [] ∧
    (dark, to_hex (from_matrix m)) ∈ (packModel m dark files).files ∧
    (packModel m dark (packModel m dark files).files).processed = false ∧
    (packModel m dark (packModel m dark files).files).files =
      (packModel m dark files).files := by
  have h1 : packModel m dark files =
      ⟨(dark, to_hex (from_matrix m)) :: files, true,
        (allPossibleRules m dark).flatMap (fun e => e.2.flatMap (fun d =>
          0x78 :: packByte e.1 :: packByte d ::
            from_matrix (successorMatrix m e.1 d))),
        (allPossibleRules m dark).flatMap (fun e => e.2.filterMap (fun d =>
          let nb := from_matrix (successorMatrix m e.1 d)
          if (!dark, to_hex nb) ∈ files then none else some nb))⟩ := by
    simp only [packModel, if_neg hnew]
  rw [h1]
  refine ⟨rfl, ?_, ?_, by simp, ?_, ?_⟩
  · rw [List.flatMap_eq_nil_iff]
    intro e he
    rw [hempty e he]
    rfl
  · rw [List.flatMap_eq_nil_iff]
    intro e he
    rw [hempty e he]
    rfl
  · simp [packModel]
  · simp [packModel]

/-- The empty board: every cell VOID. -/
def emptyBoard : List Nat := List.replicate 64 0

/-- Witness for C10 at the empty board (no pieces, hence no moves) over an empty
store. -/
theorem C10_empty_table_packs_and_dedups_witness :
    (packModel emptyBoard false []).processed = true ∧
    (packModel emptyBoard false []).storeBytes = [] ∧
    (packModel emptyBoard false []).enqueued = [] ∧
    (false, to_hex (from_matrix emptyBoard)) ∈ (packModel emptyBoard false []).files ∧
    (packModel emptyBoard false (packModel emptyBoard false []).files).processed = false ∧
    (packModel emptyBoard false (packModel emptyBoard false []).files).files =
      (packModel emptyBoard false []).files :=
  C10_empty_table_packs_and_dedups emptyBoard false [] (by decide) (by decide)

/-! ### C6 — queue delivery (`process_queue` and `QueueController.__exit__`)

Records are 32-byte blobs; `pack`'s dedup key (the blob's hex identifier) is
injective in the blob, so records are modelled by an identifying `Nat`.
Successors that `pack` emits go to the *opposite* colour's queue and never touch
the queue being drained, so they do not appear in this model. -/

/-- One drain pass of `process_queue` over the frozen, sorted shard work list,
including the shutdown checkpoint of `QueueController.__exit__`.

Arguments: fuel (see below), the running `count`, the set of identifiers whose
store file already exists (`pack` returns `False` on those and they do not count
towards the batch), and the shard list (head = open shard with its consumed
prefix removed).  Returns the records expanded by this pass and the shard files
left on disk.

Faithful to the source control flow: the `qc.read(32)` generator reads a record
*before* the `count >= batch_size` test of the loop body runs, so the record that
trips the limit has already been consumed from the file when `__exit__` rewrites
the open shard with its unread tail (`temp_` file then rename); an exhausted
shard is deleted by `next_reader` before the reader advances; when the work list
is exhausted the reader is `None` and no checkpoint file is written.

Each step removes a record or a shard, so the wrapper's fuel
(`total records + shard count + 1`) is never exhausted and the `fuel = 0`
clause is unreachable. -/
def drainGo (batch : Nat) :
    Nat → Nat → List Nat → List (List Nat) → List Nat × List (List Nat)
  | 0, _, _, shards => ([], shards)
  | _ + 1, _, _, [] => ([], [])
  | fuel + 1, count, packed, [] :: rest => drainGo batch fuel count packed rest
  | fuel + 1, count, packed, (r :: tail) :: rest =>
      if batch ≤ count then ([], tail :: rest)
      else if r ∈ packed then drainGo batch fuel count packed (tail :: rest)
      else
        let res := drainGo batch fuel (count + 1) (r :: packed) (tail :: rest)
        (r :: res.1, res.2)

/-- `process_queue(dark_mode, batch_size)`: drain with `count = 0` over the
frozen shard list. -/
def processQueueModel (batch : Nat) (packed : List Nat)
    (shards : List (List Nat)) : List Nat × List (List Nat) :=
  drainGo batch (shards.flatten.length + shards.length + 1) 0 packed shards

/-- **C6 (violated by the code).**  Evaluation at the failing input: one shard
holding records `7` then `9`, `batch_size = 1`, empty store.  The pass expands
`7`; the generator then reads `9` out of the shard before the batch check fires,
the loop breaks, and the orderly-shutdown checkpoint rewrites the shard with the
now-empty unread tail.  Record `9` is neither expanded nor present in any
remaining shard file afterwards — it is skipped, contradicting the claimed
at-least-once delivery. -/
theorem C6_batch_boundary_record_lost :
    processQueueModel 1 [] [[7, 9]] = ([7], [[]]) ∧
    (9 : Nat) ∉ [(7 : Nat)] ∧
    (9 : Nat) ∉ ([[]] : List (List Nat)).flatten := by
  refine ⟨rfl, by decide, by decide⟩

end D4
